import Mathlib

/-!
Verification of the `errcode` Go library (github.com/gregwebs/errcode).

This file gives a shallow embedding of the library's core data model and
algorithms, translated from the Go source:

* `Code` — the hierarchical error-code tree (`error_code.go`):
  a local string segment plus an optional parent.  `Code.CodeStr()` computes
  the full dot-separated path; `NewCode`/`Child` validate with
  `checkCodePath` and panic on failure (here: `Option`, `none` = panic).
* `GoErr` — a closed universe of the error values the library itself
  constructs and manipulates: plain errors, `errors.Wrap` wrappers,
  `CodedError`, multi-error groups, `multiErrorCode`, `ChainContext`, and
  the `wrapped{Error,User,Op}Code` wrappers produced by the `Wrap*`
  combinators (`codes.go`, `group.go`, `wrap.go`).
* The chain-resolution algorithm `CodeChain` and the `ErrorCodes` walk
  (`group.go`), the `Combine` aggregation, the `Wrap*` combinators, and the
  metadata attach/lookup functions `SetMetaData` / `MetaDataFromAncestors`.

Go interface probes (`err.(ErrorCode)`, `err.(unwrapsError)`, …) become
total functions on the `GoErr` universe.  None of the modelled types
implements an `As(any) bool` method, so the `asAny` branches of
`CodeChain.checkError` are dead for this universe and are omitted.
-/

namespace Errcode

/-- Splitting a character list at every occurrence of `c`.  The empty list
yields one (empty) part, matching Go's `strings.Split("", ".") == [""]`. -/
def splitChars (c : Char) : List Char → List (List Char)
  | [] => [[]]
  | x :: xs =>
    let r := splitChars c xs
    if x = c then [] :: r
    else
      match r with
      | [] => [[x]]
      | y :: ys => (x :: y) :: ys

/-- Go's `strings.Split(s, ".")`: the dot-separated components of `s`,
as an executable model of the standard-library function. -/
def splitDots (s : String) : List String :=
  (splitChars '.' s.toList).map (fun l => String.mk l)

/-- A `Code` as in `error_code.go`: a local segment string (`codeStr`, which
never stores parent paths after construction) and an optional parent.
`root s` models a `Code` with `Parent == nil`; `node p s` models a `Code`
whose `Parent` points at `p`.  Go `==` on `Code` compares the segment and
the parent pointer; structurally equal parent chains share pointers in all
the library's constructions, so structural equality models it. -/
inductive Code where
  | root (seg : String)
  | node (parent : Code) (seg : String)
deriving DecidableEq, Repr

namespace Code

/-- The stored local segment (the `codeStr` field). -/
def segment : Code → String
  | .root s => s
  | .node _ s => s

/-- The `Parent` field. -/
def parentOf : Code → Option Code
  | .root _ => none
  | .node p _ => some p

/-- `Code.CodeStr()`: the full dot-separated path, rebuilt from the parent
chain. -/
def codeStr : Code → String
  | .root s => s
  | .node p s => codeStr p ++ "." ++ s

/-- `checkCodePath` applied to a freshly built child `Code{codeStr: childStr,
Parent: &parent}` (`error_code.go:301`): splits `childStr` on `"."`; a single
component always passes; otherwise the component at index `len-2` must equal
the parent's own stored segment.  `true` = no panic. -/
def checkChildPath (parent : Code) (childStr : String) : Bool :=
  let paths := splitDots childStr
  paths.length == 1 || (paths.getD (paths.length - 2) "") == parent.segment

/-- `Code.Child` (`error_code.go:96`): validates via `checkCodePath`, then
stores only the last path component.  `none` models the panic. -/
def child (parent : Code) (childStr : String) : Option Code :=
  if checkChildPath parent childStr then
    some (.node parent ((splitDots childStr).getLastD ""))
  else none

/-- `NewCode` (`error_code.go:85`): a top-level code; panics (`none`) when
the string contains a dot separator. -/
def newCode (codeRep : String) : Option Code :=
  if (splitDots codeRep).length == 1 then some (.root codeRep) else none

/-- `Code.findAncestor` (`error_code.go:108`). -/
def findAncestor (code : Code) (test : Code → Bool) : Option Code :=
  if test code then some code
  else match code with
    | .root _ => none
    | .node p _ => findAncestor p test

/-- `Code.IsAncestor` (`error_code.go:119`): looks for the given code in the
receiver's parent chain (including the receiver itself), via Go `==`. -/
def isAncestor (code ancestorCode : Code) : Bool :=
  (findAncestor code (fun an => an == ancestorCode)).isSome

end Code

/-- A metadata table (`MetaData` in the source) of values of type `V`, keyed
by full code-path strings.  The Go map is modelled as a lookup function. -/
def MetaTable (V : Type) : Type := String → Option V

/-- `Code.MetaDataFromAncestors`: first hit walking from the queried code up
through its ancestors; `none` models the returned `nil`. -/
def metaDataFromAncestors {V : Type} (md : MetaTable V) : Code → Option V
  | .root s => md (Code.codeStr (.root s))
  | .node p s =>
    match md (Code.codeStr (.node p s)) with
    | some v => some v
    | none => metaDataFromAncestors md p

/-- `Code.SetMetaData`: returns an error (`none` here) when the key already
has an entry, otherwise the updated table. -/
def setMetaData {V : Type} (md : MetaTable V) (code : Code) (item : V) :
    Option (MetaTable V) :=
  match md code.codeStr with
  | some _ => none
  | none => some (fun k => if k = code.codeStr then some item else md k)

/-- The closed universe of error values handled by the library.

* `base msg` — a plain error (`errors.New`): no code, no unwrap.
* `wrapped msg inner` — the wrapper returned by `errors.Wrap(inner, msg)`
  (external `gregwebs/errors`): `Error()` is `msg ++ ": " ++ inner.Error()`,
  `Unwrap()` is `inner`.  `Wrapf`/`Wraps` differ only in how they render the
  message / structured args; the fully formatted message is `msg` here.
* `coded c inner` — `CodedError` (`codes.go:77`): `Code()` is `c`, the
  embedded `*errwrap.ErrorWrap` cell holds `inner`, so `Error()` is
  `inner.Error()` and `Unwrap()` is `inner`.  Implements `ErrorWrapper`,
  so `WrapInPlace` succeeds on it.
* `group msg errs` — a caller-defined multi-error (such as the tests'
  `MultiErrors`): its own `Error()` message and `Unwrap() []error = errs`.
* `multiEC first rest` — `multiErrorCode` (`group.go:90`): built by
  `Combine`.  `first` is the `ErrCode` field (a Go interface value that can
  be nil — hence `Option`; every claim below only exercises non-nil), `rest`
  the remaining errors.  `Unwrap() []error` is `first :: rest`.
* `chainContext ec top` — `ChainContext` (`group.go:208`).
* `wrapCode w held`, `wrapUser w held`, `wrapOp w held` — the
  `wrapped{Error,User,Op}Code` values of `wrap.go`: `w` is the `With` field,
  `held` the contents of the embedded `*errwrap.ErrorWrap` cell (initially
  `wrap(w)`).  All three implement `ErrorWrapper`. -/
inductive GoErr where
  | base (msg : String)
  | wrapped (msg : String) (inner : GoErr)
  | coded (c : Code) (inner : GoErr)
  | group (msg : String) (errs : List GoErr)
  | multiEC (first : Option GoErr) (rest : List GoErr)
  | chainContext (ec : GoErr) (top : GoErr)
  | wrapCode (w : GoErr) (held : GoErr)
  | wrapUser (w : GoErr) (held : GoErr)
  | wrapOp (w : GoErr) (held : GoErr)

namespace GoErr

/-- Which values satisfy the `ErrorCode` interface (`Error() string` +
`Code() Code`): `CodedError`, `multiErrorCode`, `ChainContext`, and the
three `wrap.go` wrapper structs define `Code()`; plain errors, `errors.Wrap`
wrappers and plain groups do not. -/
def isErrorCode : GoErr → Bool
  | .coded _ _ | .multiEC _ _ | .chainContext _ _
  | .wrapCode _ _ | .wrapUser _ _ | .wrapOp _ _ => true
  | .base _ | .wrapped _ _ | .group _ _ => false

/-- `Code()` of an `ErrorCode` value; `none` for values that do not
implement the interface (and for a nil `ErrCode` field, where Go would
panic on the method call). -/
def codeOf : GoErr → Option Code
  | .coded c _ => some c
  | .multiEC first _ => match first with
    | some f => codeOf f
    | none => none
  | .chainContext ec _ => codeOf ec
  | .wrapCode w _ | .wrapUser w _ | .wrapOp w _ => codeOf w
  | _ => none

mutual

/-- `Error()`.  `multiErrorCode.Error` joins the constituents with `"; "`
starting from the `ErrCode` field (rendered `""` if that interface value is
nil, where Go would panic; no claim exercises that case).
`ChainContext.Error` returns `Top.Error()`. -/
def errorStr : GoErr → String
  | .base msg => msg
  | .wrapped msg inner => msg ++ ": " ++ errorStr inner
  | .coded _ inner => errorStr inner
  | .group msg _ => msg
  | .multiEC first rest =>
    errorStrFold (match first with | some f => errorStr f | none => "") rest
  | .chainContext _ top => errorStr top
  | .wrapCode _ held | .wrapUser _ held | .wrapOp _ held => errorStr held
termination_by e => sizeOf e

/-- The `for _, item := range e.rest { output += "; " + item.Error() }` loop
of `multiErrorCode.Error`. -/
def errorStrFold (acc : String) : List GoErr → String
  | [] => acc
  | e :: es => errorStrFold (acc ++ "; " ++ errorStr e) es
termination_by es => sizeOf es

end

/-- The single-error `Unwrap() error` method (used by `stderrors.Unwrap`).
`ChainContext.Unwrap` (`group.go:219`) returns the unwrap of `Top` when that
is non-nil, else the `ErrorCode` field.  Types with `Unwrap() []error`
(groups, `multiErrorCode`) do not have the single-error method. -/
def unwrapSingle : GoErr → Option GoErr
  | .wrapped _ inner => some inner
  | .coded _ inner => some inner
  | .chainContext ec top =>
    match unwrapSingle top with
    | some w => some w
    | none => some ec
  | .wrapCode _ held | .wrapUser _ held | .wrapOp _ held => some held
  | .base _ | .group _ _ | .multiEC _ _ => none

/-- The multi-error `Unwrap() []error` capability (`unwrapsError`).
`multiErrorCode.Unwrap` returns `ErrCode :: rest`; a nil `ErrCode` entry
would be skipped by every consumer in the library (`CodeChain(nil) = nil`),
so it is dropped here. -/
def unwrapGroup : GoErr → Option (List GoErr)
  | .group _ errs => some errs
  | .multiEC first rest => some (first.toList ++ rest)
  | _ => none

/-- Which values implement `errwrap.ErrorWrapper` (a `WrapError` method), so
that `errwrap.WrapInPlace` succeeds on them: exactly those embedding a
`*errwrap.ErrorWrap` cell. -/
def canWrapInPlace : GoErr → Bool
  | .coded _ _ | .wrapCode _ _ | .wrapUser _ _ | .wrapOp _ _ => true
  | _ => false

/-- The effect of `WrapError(wrap)`: replace the contents `held` of the
`ErrorWrap` cell by `wrap held`.  Identity on values without the cell. -/
def wrapInPlace (wrap : GoErr → GoErr) : GoErr → GoErr
  | .coded c inner => .coded c (wrap inner)
  | .wrapCode w held => .wrapCode w (wrap held)
  | .wrapUser w held => .wrapUser w (wrap held)
  | .wrapOp w held => .wrapOp w (wrap held)
  | e => e

theorem sizeOf_unwrapSingle : ∀ (e x : GoErr), unwrapSingle e = some x →
    sizeOf x < sizeOf e
  | .wrapped _ inner, x, h => by
    simp only [unwrapSingle, Option.some.injEq] at h
    subst h; simp
  | .coded _ inner, x, h => by
    simp only [unwrapSingle, Option.some.injEq] at h
    subst h; simp
  | .chainContext ec top, x, h => by
    simp only [unwrapSingle] at h
    cases hw : unwrapSingle top with
    | some w =>
      rw [hw] at h
      simp only [Option.some.injEq] at h
      subst h
      have := sizeOf_unwrapSingle top w hw
      simp; omega
    | none =>
      rw [hw] at h
      simp only [Option.some.injEq] at h
      subst h
      simp; omega
  | .wrapCode _ held, x, h => by
    simp only [unwrapSingle, Option.some.injEq] at h
    subst h; simp
  | .wrapUser _ held, x, h => by
    simp only [unwrapSingle, Option.some.injEq] at h
    subst h; simp
  | .wrapOp _ held, x, h => by
    simp only [unwrapSingle, Option.some.injEq] at h
    subst h; simp

theorem sizeOf_unwrapGroup : ∀ (e : GoErr) (items : List GoErr),
    unwrapGroup e = some items → sizeOf items < sizeOf e := by
  intro e items h
  cases e <;> simp [unwrapGroup] at h
  case group msg errs =>
    subst h; simp; try omega
  case multiEC first rest =>
    subst h
    cases first <;> simp [Option.toList]

/-- Iterated `stderrors.Unwrap`: `unwrapN n e` is the value reached after
`n` single-unwrap steps from `e` (`none` once the chain is exhausted). -/
def unwrapN : Nat → GoErr → Option GoErr
  | 0, e => some e
  | n + 1, e =>
    match unwrapSingle e with
    | some x => unwrapN n x
    | none => none

end GoErr

open GoErr

/-- `errors.WrapFn(msg)` (and `errors.WrapfFn(msg, args...)`): the wrapping
function handed to `wrapWith`; it builds the `errors.Wrap` wrapper.  The
formatting of `Wrapf` arguments is abstracted into the message string. -/
def wrapFn (msg : String) : GoErr → GoErr := fun e => .wrapped msg e

/-- `slogerr.WrapsFn(msg, args...)`: as `wrapFn`; the rendering of the
structured key/value arguments into the message is abstracted into `msg`. -/
def wrapsFn (msg : String) : GoErr → GoErr := fun e => .wrapped msg e

/-- `wrapWith` (`wrap.go:75`): nil in, nil out; if the value implements
`ErrorWrapper`, `errwrap.WrapInPlace` mutates its `ErrorWrap` cell and the
same value is returned (here: the pure image of that mutation); otherwise a
new `wrappedErrorCode` holding `wrap(errCode)` is returned. -/
def wrapWith (errCode : Option GoErr) (wrap : GoErr → GoErr) : Option GoErr :=
  match errCode with
  | none => none
  | some ec =>
    if ec.canWrapInPlace then some (ec.wrapInPlace wrap)
    else some (.wrapCode ec (wrap ec))

/-- `wrapUserWith` (`wrap.go:86`), producing a `wrappedUserCode`. -/
def wrapUserWith (errCode : Option GoErr) (wrap : GoErr → GoErr) :
    Option GoErr :=
  match errCode with
  | none => none
  | some ec =>
    if ec.canWrapInPlace then some (ec.wrapInPlace wrap)
    else some (.wrapUser ec (wrap ec))

/-- `wrapOpWith` (`wrap.go:97`), producing a `wrappedOpCode`. -/
def wrapOpWith (errCode : Option GoErr) (wrap : GoErr → GoErr) :
    Option GoErr :=
  match errCode with
  | none => none
  | some ec =>
    if ec.canWrapInPlace then some (ec.wrapInPlace wrap)
    else some (.wrapOp ec (wrap ec))

/-- `wrapG` (`wrap.go:155`): chooses `errors.WrapFn` or `errors.WrapfFn`
depending on whether format arguments were given; both are modelled by
`wrapFn` applied to the final message. -/
def wrapG (errWrap : Option GoErr → (GoErr → GoErr) → Option GoErr)
    (errCode : Option GoErr) (msg : String) : Option GoErr :=
  errWrap errCode (wrapFn msg)

/-- `Wrap` (`wrap.go:12`). -/
def Wrap (errCode : Option GoErr) (msg : String) : Option GoErr :=
  wrapG wrapWith errCode msg

/-- `Wrapf` (`wrap.go:20`). -/
def Wrapf (errCode : Option GoErr) (msg : String) : Option GoErr :=
  wrapG wrapWith errCode msg

/-- `Wraps` (`wrap.go:27`). -/
def Wraps (errCode : Option GoErr) (msg : String) : Option GoErr :=
  wrapWith errCode (wrapsFn msg)

/-- `WrapUser` (`wrap.go:34`). -/
def WrapUser (errCode : Option GoErr) (msg : String) : Option GoErr :=
  wrapG wrapUserWith errCode msg

/-- `WrapfUser` (`wrap.go:42`). -/
def WrapfUser (errCode : Option GoErr) (msg : String) : Option GoErr :=
  wrapG wrapUserWith errCode msg

/-- `WrapsUser` (`wrap.go:49`). -/
def WrapsUser (errCode : Option GoErr) (msg : String) : Option GoErr :=
  wrapUserWith errCode (wrapsFn msg)

/-- `WrapOp` (`wrap.go:56`). -/
def WrapOp (errCode : Option GoErr) (msg : String) : Option GoErr :=
  wrapG wrapOpWith errCode msg

/-- `WrapfOp` (`wrap.go:64`). -/
def WrapfOp (errCode : Option GoErr) (msg : String) : Option GoErr :=
  wrapG wrapOpWith errCode msg

/-- `WrapsOp` (`wrap.go:71`). -/
def WrapsOp (errCode : Option GoErr) (msg : String) : Option GoErr :=
  wrapOpWith errCode (wrapsFn msg)

/-- One step of `combineGeneric`'s loop over `others` (`group.go:66`): while
`initial` is nil, the first member satisfying `ErrorCode` is promoted to
`initial` (and not appended to `rest`); every other member is appended. -/
def combineFold (acc : Option GoErr × List GoErr) (other : GoErr) :
    Option GoErr × List GoErr :=
  match acc with
  | (none, rest) =>
    if other.isErrorCode then (some other, rest) else (none, rest ++ [other])
  | (some ini, rest) => (some ini, rest ++ [other])

/-- `combineGeneric` (`group.go:64`): `none` models the nil return (no
`ErrorCode` and nothing else to hold). -/
def combineGeneric (initial : Option GoErr) (others : List GoErr) :
    Option (Option GoErr × List GoErr) :=
  match others.foldl combineFold (initial, []) with
  | (ini, rest) => if rest.isEmpty && ini.isNone then none else some (ini, rest)

/-- `Combine` (`group.go:103`): with no `others` and a non-nil `initial`
return `initial` unchanged, else build a `multiErrorCode` from the result of
`combineGeneric`. -/
def Combine (initial : Option GoErr) (others : List GoErr) : Option GoErr :=
  if others.isEmpty && initial.isSome then initial
  else
    match combineGeneric initial others with
    | none => none
    | some (ini, rest) => some (.multiEC ini rest)

mutual

/-- `CodeChain` (`group.go:148`): the fast path returns an `ErrorCode` input
unchanged; otherwise the single-unwrap chain is walked, testing every node
with `checkError`, and a hit is wrapped in a `ChainContext` together with
the original input.  `none` models the nil return. -/
def codeChain (e : GoErr) : Option GoErr :=
  if e.isErrorCode then some e else codeChainFrom e e
termination_by 4 * sizeOf e + 2

/-- The `for err != nil { ... err = stderrors.Unwrap(err) }` loop of
`CodeChain`, with `orig` the original input (`errInput`). -/
def codeChainFrom (orig cur : GoErr) : Option GoErr :=
  match checkError cur with
  | some errCode => some (.chainContext errCode orig)
  | none =>
    match h : cur.unwrapSingle with
    | some nxt => codeChainFrom orig nxt
    | none => none
termination_by 4 * sizeOf cur + 1
decreasing_by
  all_goals simp_wf
  all_goals first
    | omega
    | (have hd := sizeOf_unwrapSingle cur nxt h; omega)

/-- The `checkError` closure inside `CodeChain` (`group.go:149`): an
`ErrorCode` is returned as-is; otherwise a value with `Unwrap() []error` has
each member resolved recursively, a single hit being returned directly and
several hits being merged with `Combine`.  None of the modelled types
implements `As(any) bool`, so the `asAny` probes are statically dead. -/
def checkError (cur : GoErr) : Option GoErr :=
  if cur.isErrorCode then some cur
  else
    match hg : cur.unwrapGroup with
    | some items =>
      match codeChainList items with
      | [] => none
      | [g] => some g
      | g :: gs => Combine (some g) gs
    | none => none
termination_by 4 * sizeOf cur
decreasing_by
  all_goals simp_wf
  all_goals first
    | omega
    | (have hd := sizeOf_unwrapGroup cur items hg; omega)

/-- The member loop of `checkError`: `CodeChain` applied to each member,
keeping the non-nil results. -/
def codeChainList (items : List GoErr) : List GoErr :=
  match items with
  | [] => []
  | e :: es =>
    match codeChain e with
    | some ec => ec :: codeChainList es
    | none => codeChainList es
termination_by 4 * sizeOf items + 3
decreasing_by
  all_goals simp_wf
  all_goals omega

end

mutual

/-- Modelled after `errwrap.UnwrapGroups` (external `gregwebs/errors`): the
depth-first enumeration of an error's unwrap tree — the error itself, then
recursively the members of its `Unwrap() []error` group if it is one, else
its single `Unwrap() error` cause if it has one. -/
def unwrapGroups (e : GoErr) : List GoErr :=
  e ::
    (match hg : e.unwrapGroup with
     | some items => unwrapGroupsList items
     | none =>
       match h : e.unwrapSingle with
       | some nxt => unwrapGroups nxt
       | none => [])
termination_by 2 * sizeOf e
decreasing_by
  all_goals simp_wf
  all_goals first
    | (have hd := sizeOf_unwrapGroup e items hg; omega)
    | (have hd := sizeOf_unwrapSingle e nxt h; omega)

/-- Depth-first enumeration of a list of group members. -/
def unwrapGroupsList (items : List GoErr) : List GoErr :=
  match items with
  | [] => []
  | x :: xs => unwrapGroups x ++ unwrapGroupsList xs
termination_by 2 * sizeOf items + 1
decreasing_by
  all_goals simp_wf
  all_goals omega

end

/-- The local code segment of an `ErrorCode` value: the `codeStr` FIELD of
its `Code()` (not the full path), which is what `ErrorCodes` compares. -/
def segOf (e : GoErr) : Option String := e.codeOf.map Code.segment

/-- The full code path of an `ErrorCode` value: `Code().CodeStr()`. -/
def fullPathOf (e : GoErr) : Option String := e.codeOf.map Code.codeStr

/-- The body of the `ErrorCodes` loop (`group.go:19`): keep a walked error
if it satisfies `ErrorCode` and either nothing was kept yet or the last kept
entry's `Code().codeStr` (the local segment) differs. -/
def errorCodesFold (acc : List GoErr) (err : GoErr) : List GoErr :=
  if err.isErrorCode then
    match acc.getLast? with
    | none => acc ++ [err]
    | some prev => if segOf prev = segOf err then acc else acc ++ [err]
  else acc

/-- `ErrorCodes` (`group.go:17`): fold the `UnwrapGroups` walk, collecting
`ErrorCode` values with adjacent deduplication. -/
def ErrorCodes (errIn : Option GoErr) : List GoErr :=
  match errIn with
  | none => []
  | some e => (unwrapGroups e).foldl errorCodesFold []

/-- Modelled from the spec: the `AllCodes` walk as the spec describes it,
with "de-duplication … by full code path, comparing each candidate to the
immediately preceding kept entry only".  Identical to `ErrorCodes` except
that the comparison uses the full `CodeStr()` path. -/
def errorCodesSpecFold (acc : List GoErr) (err : GoErr) : List GoErr :=
  if err.isErrorCode then
    match acc.getLast? with
    | none => acc ++ [err]
    | some prev => if fullPathOf prev = fullPathOf err then acc else acc ++ [err]
  else acc

/-- Modelled from the spec: see `errorCodesSpecFold`. -/
def errorCodesSpec (errIn : Option GoErr) : List GoErr :=
  match errIn with
  | none => []
  | some e => (unwrapGroups e).foldl errorCodesSpecFold []

/-- Adjacent deduplication keyed by the kept entry `k`: a candidate whose
local code segment equals that of the immediately preceding kept entry is
dropped, otherwise it is kept and becomes the new comparison point. -/
def tailDedupSeg (k : GoErr) : List GoErr → List GoErr
  | [] => []
  | x :: xs => if segOf k = segOf x then tailDedupSeg k xs
               else x :: tailDedupSeg x xs

/-- Order-preserving adjacent deduplication of a walk list by local code
segment (the first element is always kept). -/
def dedupAdjBySeg : List GoErr → List GoErr
  | [] => []
  | x :: xs => x :: tailDedupSeg x xs

/-- The portion of a dotted path string before its last separator (used to
state what the spec claims `Child` validates). -/
def beforeLastSep (s : String) : String :=
  String.intercalate "." ((splitDots s).dropLast)

/-! ### Helper lemmas -/

theorem findAncestor_pos (code : Code) (test : Code → Bool)
    (h : test code = true) : Code.findAncestor code test = some code := by
  cases code <;> simp [Code.findAncestor, h]

theorem isAncestor_self_base (c : Code) : Code.isAncestor c c = true := by
  unfold Code.isAncestor
  rw [findAncestor_pos c _ (by simp)]
  rfl

theorem isAncestor_of_child (parent : Code) (s : String) :
    Code.isAncestor (.node parent s) parent = true := by
  unfold Code.isAncestor
  by_cases h : ((Code.node parent s) == parent) = true
  · rw [findAncestor_pos (Code.node parent s) (fun an => an == parent) h]
    rfl
  · unfold Code.findAncestor
    simp only [Bool.not_eq_true] at h
    rw [h]
    simp only [Bool.false_eq_true, if_false]
    rw [findAncestor_pos parent _ (by simp)]
    rfl

theorem metaDataFromAncestors_hit {V : Type} (md : MetaTable V) (c : Code)
    (v : V) (h : md c.codeStr = some v) :
    metaDataFromAncestors md c = some v := by
  cases c <;> simp_all [metaDataFromAncestors, Code.codeStr]

theorem metaDataFromAncestors_node_miss {V : Type} (md : MetaTable V)
    (p : Code) (s : String) (h : md (Code.codeStr (.node p s)) = none) :
    metaDataFromAncestors md (.node p s) = metaDataFromAncestors md p := by
  simp_all [metaDataFromAncestors, Code.codeStr]

theorem codeStr_child_ne (parent : Code) (st : String) :
    Code.codeStr (.node parent st) ≠ Code.codeStr parent := by
  intro h
  have hlen := congrArg String.length h
  have hdot : ".".length = 1 := by decide
  simp only [Code.codeStr, String.length_append, hdot] at hlen
  omega

theorem checkError_of_ec (cur : GoErr) (h : cur.isErrorCode = true) :
    checkError cur = some cur := by
  unfold checkError
  rw [h]
  simp

theorem codeChain_of_ec (e : GoErr) (h : e.isErrorCode = true) :
    codeChain e = some e := by
  unfold codeChain
  rw [h]
  simp

/-! ### Claim theorems -/

/-- C5: every wrapping combinator variant (`Wrap`, `Wrapf`, `Wraps`,
`WrapUser`, `WrapfUser`, `WrapsUser`, `WrapOp`, `WrapfOp`, `WrapsOp`) maps a
nil error-code input to a nil output, for every message. -/
theorem wrap_combinators_nil_noop (m : String) :
    Wrap none m = none ∧ Wrapf none m = none ∧ Wraps none m = none ∧
    WrapUser none m = none ∧ WrapfUser none m = none ∧
    WrapsUser none m = none ∧ WrapOp none m = none ∧
    WrapfOp none m = none ∧ WrapsOp none m = none :=
  ⟨rfl, rfl, rfl, rfl, rfl, rfl, rfl, rfl, rfl⟩

/-- C7: for every code `parent` and separator-free segment `s` (the spec's
data model defines a segment as a local string with no separator
characters), `parent.Child(s)` succeeds with the node `child`, which
satisfies `child.IsAncestor(parent)` and
`child.CodeStr() = parent.CodeStr() + "." + s`; and every code is its own
ancestor. -/
theorem child_ancestry_and_full_path (parent : Code) (s : String) (c : Code)
    (hseg : splitDots s = [s]) :
    Code.child parent s = some (.node parent s) ∧
    Code.isAncestor (.node parent s) parent = true ∧
    Code.codeStr (.node parent s) = Code.codeStr parent ++ "." ++ s ∧
    Code.isAncestor c c = true := by
  refine ⟨?_, isAncestor_of_child parent s, rfl, isAncestor_self_base c⟩
  simp [Code.child, Code.checkChildPath, hseg]

/-- Witness for C7 at `parent = "input"`, `s = "testcode"`, `c = "top"`. -/
theorem child_ancestry_and_full_path_witness :
    splitDots "testcode" = ["testcode"] ∧
    (Code.child (.root "input") "testcode" =
        some (.node (.root "input") "testcode") ∧
      Code.isAncestor (.node (.root "input") "testcode") (.root "input") =
        true ∧
      Code.codeStr (.node (.root "input") "testcode") =
        Code.codeStr (.root "input") ++ "." ++ "testcode" ∧
      Code.isAncestor (.root "top") (.root "top") = true) :=
  ⟨by decide,
   child_ancestry_and_full_path (.root "input") "testcode" (.root "top")
     (by decide)⟩

/-- C2: `CodeChain` returns an input that itself satisfies `ErrorCode`
directly, with no wrapper — including inputs that also implement the
multi-error `Unwrap() []error` capability (such as `multiErrorCode`),
because the `ErrorCode` fast path is checked before any group inspection. -/
theorem codeChain_fast_path (err : GoErr) (h : err.isErrorCode = true) :
    codeChain err = some err :=
  codeChain_of_ec err h

/-- Witness for C2 at a `multiErrorCode` value, which satisfies both
`ErrorCode` and `Unwrap() []error`. -/
theorem codeChain_fast_path_witness :
    GoErr.isErrorCode
        (.multiEC (some (.coded (.root "a") (.base "x")))
          [.coded (.root "b") (.base "y")]) = true ∧
    GoErr.unwrapGroup
        (.multiEC (some (.coded (.root "a") (.base "x")))
          [.coded (.root "b") (.base "y")]) ≠ none ∧
    codeChain
        (.multiEC (some (.coded (.root "a") (.base "x")))
          [.coded (.root "b") (.base "y")]) =
      some (.multiEC (some (.coded (.root "a") (.base "x")))
          [.coded (.root "b") (.base "y")]) :=
  ⟨rfl, by simp [GoErr.unwrapGroup], codeChain_fast_path _ rfl⟩

/-- C9: after `parent.SetMetaData(T, v)` succeeds on a table with no entry
for `parent`, a child of `parent` with no own entry in the table inherits
`v` through `MetaDataFromAncestors` (closest-wins walk up the ancestors). -/
theorem metadata_inherited_from_parent {V : Type} (md : MetaTable V)
    (parent child : Code) (seg : String) (v : V)
    (hset : md parent.codeStr = none)
    (hchild : Code.child parent seg = some child)
    (hown : md child.codeStr = none) :
    ∃ md', setMetaData md parent v = some md' ∧
      metaDataFromAncestors md' child = some v := by
  refine ⟨fun k => if k = parent.codeStr then some v else md k, ?_, ?_⟩
  · unfold setMetaData
    rw [hset]
  · have hshape : child = .node parent ((splitDots seg).getLastD "") := by
      unfold Code.child at hchild
      by_cases hcp : Code.checkChildPath parent seg = true
      · rw [if_pos hcp] at hchild
        exact (Option.some.inj hchild).symm
      · rw [if_neg hcp] at hchild
        exact Option.noConfusion hchild
    subst hshape
    have hne := codeStr_child_ne parent ((splitDots seg).getLastD "")
    have hmd' : (fun k => if k = parent.codeStr then some v else md k)
        (Code.codeStr (.node parent ((splitDots seg).getLastD ""))) = none := by
      simp only [if_neg hne]
      exact hown
    rw [metaDataFromAncestors_node_miss _ _ _ hmd']
    exact metaDataFromAncestors_hit _ parent v (by simp)

theorem codeChain_not_ec (e : GoErr) (h : e.isErrorCode = false) :
    codeChain e = codeChainFrom e e := by
  unfold codeChain
  rw [h]
  simp

theorem codeChainFrom_step_some (orig cur ec : GoErr)
    (h : checkError cur = some ec) :
    codeChainFrom orig cur = some (.chainContext ec orig) := by
  unfold codeChainFrom
  rw [h]

theorem codeChainFrom_step_none (orig cur : GoErr)
    (h : checkError cur = none) :
    codeChainFrom orig cur =
      (match cur.unwrapSingle with
       | some nxt => codeChainFrom orig nxt
       | none => none) := by
  conv_lhs => unfold codeChainFrom
  rw [h]
  split
  · rename_i heq
    exact Option.noConfusion heq
  · split
    · rename_i nxt heq
      rw [heq]
    · rename_i heq
      rw [heq]

theorem checkError_group (cur : GoErr) (items : List GoErr)
    (hne : cur.isErrorCode = false) (hg : cur.unwrapGroup = some items) :
    checkError cur =
      (match codeChainList items with
       | [] => none
       | [g] => some g
       | g :: gs => Combine (some g) gs) := by
  unfold checkError
  rw [hne]
  simp only [Bool.false_eq_true, if_false]
  split
  · rename_i items' heq
    rw [hg] at heq
    cases Option.some.inj heq
    rfl
  · rename_i heq
    rw [hg] at heq
    exact Option.noConfusion heq

theorem checkError_single (cur : GoErr) (hne : cur.isErrorCode = false)
    (hg : cur.unwrapGroup = none) : checkError cur = none := by
  unfold checkError
  rw [hne]
  simp only [Bool.false_eq_true, if_false]
  split
  · rename_i items' heq
    rw [hg] at heq
    exact Option.noConfusion heq
  · rfl

theorem codeChainList_cons (e : GoErr) (es : List GoErr) :
    codeChainList (e :: es) =
      (match codeChain e with
       | some ec => ec :: codeChainList es
       | none => codeChainList es) := by
  conv_lhs => unfold codeChainList

theorem codeChainList_nil : codeChainList [] = [] := by
  unfold codeChainList
  rfl

theorem checkError_none_not_ec (cur : GoErr) (h : checkError cur = none) :
    cur.isErrorCode = false := by
  by_contra hne
  simp only [Bool.not_eq_false] at hne
  rw [checkError_of_ec cur hne] at h
  exact Option.noConfusion h

theorem codeChainFrom_finds : ∀ (n : Nat) (orig cur v : GoErr),
    unwrapN n cur = some v → v.isErrorCode = true →
    ∃ ec, codeChainFrom orig cur = some (.chainContext ec orig) := by
  intro n
  induction n with
  | zero =>
    intro orig cur v hv hec
    simp only [GoErr.unwrapN, Option.some.injEq] at hv
    subst hv
    refine ⟨cur, ?_⟩
    unfold codeChainFrom
    rw [checkError_of_ec cur hec]
  | succ n ih =>
    intro orig cur v hv hec
    cases hce : checkError cur with
    | some ec =>
      refine ⟨ec, ?_⟩
      unfold codeChainFrom
      rw [hce]
    | none =>
      cases hun : cur.unwrapSingle with
      | none =>
        rw [GoErr.unwrapN, hun] at hv
        exact Option.noConfusion hv
      | some x =>
        have hv' : unwrapN n x = some v := by
          rw [GoErr.unwrapN, hun] at hv
          exact hv
        obtain ⟨ec, hev⟩ := ih orig x v hv' hec
        refine ⟨ec, ?_⟩
        unfold codeChainFrom
        rw [hce]
        split
        · rename_i heq
          exact Option.noConfusion heq
        · split
          · rename_i nxt heq
            rw [hun] at heq
            cases Option.some.inj heq
            exact hev
          · rename_i heq
            rw [hun] at heq
            exact Option.noConfusion heq

/-- C1: when `err` does not itself satisfy `ErrorCode` but a value in its
single-unwrap chain does, `CodeChain(err)` returns a `ChainContext` whose
`Top` is the original `err`, so its `Error()` string is the full original
top-level message. -/
theorem codeChain_preserves_top_message (err : GoErr)
    (h1 : err.isErrorCode = false)
    (h2 : ∃ n v, unwrapN n err = some v ∧ v.isErrorCode = true) :
    ∃ ec, codeChain err = some (.chainContext ec err) ∧
      errorStr (.chainContext ec err) = errorStr err := by
  obtain ⟨n, v, hv, hec⟩ := h2
  obtain ⟨ec, he⟩ := codeChainFrom_finds n err err v hv hec
  refine ⟨ec, ?_, by simp [errorStr]⟩
  unfold codeChain
  rw [h1]
  simpa using he

/-- Witness for C1 at `errors.Wrap(CodedError("boom"), "ann")`. -/
theorem codeChain_preserves_top_message_witness :
    GoErr.isErrorCode
        (.wrapped "ann" (.coded (.root "c") (.base "boom"))) = false ∧
    unwrapN 1 (.wrapped "ann" (.coded (.root "c") (.base "boom"))) =
      some (.coded (.root "c") (.base "boom")) ∧
    GoErr.isErrorCode (.coded (.root "c") (.base "boom")) = true ∧
    ∃ ec, codeChain (.wrapped "ann" (.coded (.root "c") (.base "boom"))) =
        some (.chainContext ec
          (.wrapped "ann" (.coded (.root "c") (.base "boom")))) ∧
      errorStr (.chainContext ec
          (.wrapped "ann" (.coded (.root "c") (.base "boom")))) =
        errorStr (.wrapped "ann" (.coded (.root "c") (.base "boom"))) :=
  ⟨rfl, rfl, rfl,
   codeChain_preserves_top_message _ rfl
     ⟨1, .coded (.root "c") (.base "boom"), rfl, rfl⟩⟩

/-- C4: wrapping a non-nil `ErrorCode` with `Wrap(e, m)` yields a value
that still satisfies `ErrorCode`, reports `e`'s `Code()` unchanged, has
`Error()` equal to `m ++ ": " ++ e.Error()`, and unwraps back (in at most
two single-unwrap steps) to the value that `e` denotes after the call —
`e` itself when a fresh wrapper was allocated, or the in-place-updated
value when `e` implements `ErrorWrapper` and `WrapInPlace` mutated it (in
Go the returned value then IS `e`, reached in zero steps). -/
theorem wrap_roundtrip (e : GoErr) (m : String) (h : e.isErrorCode = true) :
    ∃ r, Wrap (some e) m = some r ∧ r.isErrorCode = true ∧
      r.codeOf = e.codeOf ∧ errorStr r = m ++ ": " ++ errorStr e ∧
      ∃ n, n ≤ 2 ∧ unwrapN n r = some (if e.canWrapInPlace then r else e) := by
  cases e with
  | base msg => simp [GoErr.isErrorCode] at h
  | wrapped msg inner => simp [GoErr.isErrorCode] at h
  | group msg errs => simp [GoErr.isErrorCode] at h
  | coded c inner =>
    refine ⟨.coded c (.wrapped m inner), ?_, rfl, rfl, ?_, 0, by omega, ?_⟩
    · simp [Wrap, wrapG, wrapWith, wrapFn, GoErr.canWrapInPlace,
        GoErr.wrapInPlace]
    · simp [errorStr]
    · simp [GoErr.canWrapInPlace, GoErr.unwrapN]
  | multiEC first rest =>
    refine ⟨.wrapCode (.multiEC first rest) (.wrapped m (.multiEC first rest)),
      ?_, rfl, rfl, ?_, 2, by omega, ?_⟩
    · simp [Wrap, wrapG, wrapWith, wrapFn, GoErr.canWrapInPlace]
    · simp [errorStr]
    · simp [GoErr.canWrapInPlace, GoErr.unwrapN, GoErr.unwrapSingle]
  | chainContext ec top =>
    refine ⟨.wrapCode (.chainContext ec top) (.wrapped m (.chainContext ec top)),
      ?_, rfl, rfl, ?_, 2, by omega, ?_⟩
    · simp [Wrap, wrapG, wrapWith, wrapFn, GoErr.canWrapInPlace]
    · simp [errorStr]
    · simp [GoErr.canWrapInPlace, GoErr.unwrapN, GoErr.unwrapSingle]
  | wrapCode w held =>
    refine ⟨.wrapCode w (.wrapped m held), ?_, rfl, rfl, ?_, 0, by omega, ?_⟩
    · simp [Wrap, wrapG, wrapWith, wrapFn, GoErr.canWrapInPlace,
        GoErr.wrapInPlace]
    · simp [errorStr]
    · simp [GoErr.canWrapInPlace, GoErr.unwrapN]
  | wrapUser w held =>
    refine ⟨.wrapUser w (.wrapped m held), ?_, rfl, rfl, ?_, 0, by omega, ?_⟩
    · simp [Wrap, wrapG, wrapWith, wrapFn, GoErr.canWrapInPlace,
        GoErr.wrapInPlace]
    · simp [errorStr]
    · simp [GoErr.canWrapInPlace, GoErr.unwrapN]
  | wrapOp w held =>
    refine ⟨.wrapOp w (.wrapped m held), ?_, rfl, rfl, ?_, 0, by omega, ?_⟩
    · simp [Wrap, wrapG, wrapWith, wrapFn, GoErr.canWrapInPlace,
        GoErr.wrapInPlace]
    · simp [errorStr]
    · simp [GoErr.canWrapInPlace, GoErr.unwrapN]

/-- Witness for C4 at `e = CodedError("boom", code "c")`, `m = "while"`. -/
theorem wrap_roundtrip_witness :
    GoErr.isErrorCode (.coded (.root "c") (.base "boom")) = true ∧
    ∃ r, Wrap (some (.coded (.root "c") (.base "boom"))) "while" = some r ∧
      r.isErrorCode = true ∧
      r.codeOf = GoErr.codeOf (.coded (.root "c") (.base "boom")) ∧
      errorStr r = "while" ++ ": " ++
        errorStr (.coded (.root "c") (.base "boom")) ∧
      ∃ n, n ≤ 2 ∧ unwrapN n r =
        some (if GoErr.canWrapInPlace (.coded (.root "c") (.base "boom"))
          then r else (.coded (.root "c") (.base "boom"))) :=
  ⟨rfl, wrap_roundtrip (.coded (.root "c") (.base "boom")) "while" rfl⟩

theorem foldl_combineFold_some (os : List GoErr) (ini : GoErr)
    (rest0 : List GoErr) :
    os.foldl combineFold (some ini, rest0) = (some ini, rest0 ++ os) := by
  induction os generalizing rest0 with
  | nil => simp
  | cons o os ih => simp [List.foldl_cons, combineFold, ih]

theorem foldl_combineFold_promotes (os : List GoErr) (p : GoErr)
    (rest0 : List GoErr) (hfind : os.find? GoErr.isErrorCode = some p) :
    ∃ rest, os.foldl combineFold (none, rest0) = (some p, rest) := by
  induction os generalizing rest0 with
  | nil => simp at hfind
  | cons o os ih =>
    by_cases hec : o.isErrorCode = true
    · rw [List.find?_cons_of_pos _ hec] at hfind
      obtain rfl := Option.some.inj hfind
      refine ⟨rest0 ++ os, ?_⟩
      simp [List.foldl_cons, combineFold, hec, foldl_combineFold_some]
    · rw [List.find?_cons_of_neg _ (by simp [hec])] at hfind
      obtain ⟨rest, hr⟩ := ih (rest0 ++ [o]) hfind
      refine ⟨rest, ?_⟩
      simpa [List.foldl_cons, combineFold, hec] using hr

/-- C8: `Combine(nil, others...)` with at least one `ErrorCode` among
`others` promotes the first such member to the primary slot: the result is
a non-nil `multiErrorCode` whose `Code()` delegates to the promoted
member. -/
theorem combine_promotes_first_errorcode (others : List GoErr) (p : GoErr)
    (hfind : others.find? GoErr.isErrorCode = some p) :
    ∃ rest, Combine none others = some (.multiEC (some p) rest) ∧
      GoErr.codeOf (.multiEC (some p) rest) = p.codeOf := by
  obtain ⟨rest, hr⟩ := foldl_combineFold_promotes others p [] hfind
  refine ⟨rest, ?_, by simp [GoErr.codeOf]⟩
  simp [Combine, combineGeneric, hr]

/-- Witness for C8: a non-code error followed by a coded error. -/
theorem combine_promotes_first_errorcode_witness :
    ([GoErr.base "x", GoErr.coded (.root "c") (.base "y")].find?
        GoErr.isErrorCode = some (.coded (.root "c") (.base "y"))) ∧
    ∃ rest, Combine none [GoErr.base "x", .coded (.root "c") (.base "y")] =
        some (.multiEC (some (.coded (.root "c") (.base "y"))) rest) ∧
      GoErr.codeOf (.multiEC (some (.coded (.root "c") (.base "y"))) rest) =
        GoErr.codeOf (.coded (.root "c") (.base "y")) :=
  ⟨rfl, combine_promotes_first_errorcode _ _ rfl⟩

theorem foldl_errorCodesFold_filter (l : List GoErr) (acc : List GoErr) :
    l.foldl errorCodesFold acc =
      (l.filter (fun x => GoErr.isErrorCode x)).foldl errorCodesFold acc := by
  induction l generalizing acc with
  | nil => rfl
  | cons x xs ih =>
    by_cases hx : x.isErrorCode = true
    · simp [List.foldl_cons, List.filter_cons, hx, ih]
    · simp only [Bool.not_eq_true] at hx
      simp [List.foldl_cons, List.filter_cons, hx, ih, errorCodesFold]

theorem foldl_errorCodesFold_append (l : List GoErr) (acc : List GoErr)
    (k : GoErr) (hall : ∀ x ∈ l, GoErr.isErrorCode x = true) :
    l.foldl errorCodesFold (acc ++ [k]) = acc ++ [k] ++ tailDedupSeg k l := by
  induction l generalizing acc k with
  | nil => simp [tailDedupSeg]
  | cons x xs ih =>
    have hx : x.isErrorCode = true := hall x (by simp)
    have hrest : ∀ y ∈ xs, GoErr.isErrorCode y = true :=
      fun y hy => hall y (by simp [hy])
    by_cases hseg : segOf k = segOf x
    · have hstep : errorCodesFold (acc ++ [k]) x = acc ++ [k] := by
        simp [errorCodesFold, hx, hseg]
      rw [List.foldl_cons, hstep, ih acc k hrest]
      simp [tailDedupSeg, hseg]
    · have hstep : errorCodesFold (acc ++ [k]) x = (acc ++ [k]) ++ [x] := by
        simp [errorCodesFold, hx, hseg]
      rw [List.foldl_cons, hstep, ih (acc ++ [k]) x hrest]
      simp [tailDedupSeg, hseg]

theorem tailDedupSeg_sublist : ∀ (l : List GoErr) (k : GoErr),
    List.Sublist (tailDedupSeg k l) l := by
  intro l
  induction l with
  | nil => intro k; simp [tailDedupSeg]
  | cons x xs ih =>
    intro k
    by_cases hseg : segOf k = segOf x
    · simp only [tailDedupSeg, hseg, if_pos]
      exact List.Sublist.trans (ih k) (List.sublist_cons_self x xs)
    · simp only [tailDedupSeg, hseg, if_neg, if_false]
      exact List.Sublist.cons₂ x (ih x)

/-- C3 (amended): `ErrorCodes` returns the order-preserving walk list of
`ErrorCode` values with adjacent deduplication keyed by the LOCAL (last)
code segment — the `codeStr` field of `Code()` — comparing each candidate
only to the immediately preceding kept entry.  In particular consecutive
entries with equal full code paths still collapse (equal full paths have
equal last segments) and non-adjacent repeats are all kept, but the
comparison is not by full code path (see the counterexample). -/
theorem errorCodes_adjacent_dedup_by_segment (e : GoErr) :
    ErrorCodes (some e) =
      dedupAdjBySeg ((unwrapGroups e).filter (fun x => GoErr.isErrorCode x)) ∧
    List.Sublist (ErrorCodes (some e))
      ((unwrapGroups e).filter (fun x => GoErr.isErrorCode x)) := by
  have heq : ErrorCodes (some e) =
      dedupAdjBySeg ((unwrapGroups e).filter (fun x => GoErr.isErrorCode x)) := by
    show (unwrapGroups e).foldl errorCodesFold [] = _
    rw [foldl_errorCodesFold_filter]
    cases hf : (unwrapGroups e).filter (fun x => GoErr.isErrorCode x) with
    | nil => rfl
    | cons k rest =>
      have hall : ∀ x ∈ k :: rest, GoErr.isErrorCode x = true := by
        intro x hx
        have : x ∈ (unwrapGroups e).filter (fun y => GoErr.isErrorCode y) := by
          rw [hf]; exact hx
        exact (List.mem_filter.mp this).2
      have hk : k.isErrorCode = true := hall k (by simp)
      have hstep : errorCodesFold [] k = [] ++ [k] := by
        simp [errorCodesFold, hk]
      rw [List.foldl_cons, hstep,
        foldl_errorCodesFold_append rest [] k
          (fun y hy => hall y (by simp [hy]))]
      simp [dedupAdjBySeg]
  refine ⟨heq, ?_⟩
  rw [heq]
  cases (unwrapGroups e).filter (fun x => GoErr.isErrorCode x) with
  | nil => simp [dedupAdjBySeg]
  | cons k rest =>
    simp only [dedupAdjBySeg]
    exact List.Sublist.cons₂ k (tailDedupSeg_sublist rest k)

/-- Counterexample for C3: two ADJACENT codes in the walk with DIFFERENT
full code paths (`"a.x"` and `"b.x"`) but the same local segment `"x"`.
The source (`group.go:22`) compares `Code().codeStr` — the local segment
field — so the second code is dropped, whereas deduplication "by full code
path" (the spec's words, `errorCodesSpec`) keeps both. -/
theorem errorCodes_dedup_not_by_full_path :
    ErrorCodes (some (.coded (Code.node (.root "a") "x")
        (.coded (Code.node (.root "b") "x") (.base "m")))) =
      [.coded (Code.node (.root "a") "x")
        (.coded (Code.node (.root "b") "x") (.base "m"))] ∧
    errorCodesSpec (some (.coded (Code.node (.root "a") "x")
        (.coded (Code.node (.root "b") "x") (.base "m")))) =
      [.coded (Code.node (.root "a") "x")
        (.coded (Code.node (.root "b") "x") (.base "m")),
       .coded (Code.node (.root "b") "x") (.base "m")] ∧
    ErrorCodes (some (.coded (Code.node (.root "a") "x")
        (.coded (Code.node (.root "b") "x") (.base "m")))) ≠
      errorCodesSpec (some (.coded (Code.node (.root "a") "x")
        (.coded (Code.node (.root "b") "x") (.base "m")))) := by
  refine ⟨?_, ?_, ?_⟩
  · simp [ErrorCodes, unwrapGroups, unwrapGroupsList, GoErr.unwrapGroup,
      GoErr.unwrapSingle, errorCodesFold, GoErr.isErrorCode, segOf,
      GoErr.codeOf, Code.segment]
  · simp [errorCodesSpec, unwrapGroups, unwrapGroupsList, GoErr.unwrapGroup,
      GoErr.unwrapSingle, errorCodesSpecFold, GoErr.isErrorCode, fullPathOf,
      GoErr.codeOf, Code.codeStr]
  · simp [ErrorCodes, errorCodesSpec, unwrapGroups, unwrapGroupsList,
      GoErr.unwrapGroup, GoErr.unwrapSingle, errorCodesFold,
      errorCodesSpecFold, GoErr.isErrorCode, segOf, fullPathOf,
      GoErr.codeOf, Code.segment, Code.codeStr]

theorem splitChars_ne_nil (c : Char) : ∀ l : List Char,
    splitChars c l ≠ [] := by
  intro l
  induction l with
  | nil => simp [splitChars]
  | cons x xs ih =>
    simp only [splitChars]
    by_cases hx : x = c
    · simp [hx]
    · cases hrec : splitChars c xs with
      | nil => exact absurd hrec ih
      | cons y ys => simp [hx, hrec]

theorem splitDots_ne_nil (s : String) : splitDots s ≠ [] := by
  unfold splitDots
  cases h : splitChars '.' s.toList with
  | nil => exact absurd h (splitChars_ne_nil '.' s.toList)
  | cons y ys => simp

/-- C6 (amended): `parent.Child(childStr)` panics exactly when `childStr`
has at least two dot-separated components and the SECOND-TO-LAST component
differs from the parent's own LOCAL (stored) segment; components before
that, and the parent's full path, are not validated (see the
counterexample).  On success the child stores only the last component. -/
theorem child_validates_only_parent_segment (parent : Code)
    (childStr : String) :
    (Code.child parent childStr = none ↔
      (2 ≤ (splitDots childStr).length ∧
        (splitDots childStr).getD ((splitDots childStr).length - 2) "" ≠
          parent.segment)) ∧
    (∀ c, Code.child parent childStr = some c →
      c = .node parent ((splitDots childStr).getLastD "")) := by
  have hpos : 0 < (splitDots childStr).length :=
    List.length_pos.mpr (splitDots_ne_nil childStr)
  constructor
  · unfold Code.child
    by_cases hcp : Code.checkChildPath parent childStr = true
    · rw [if_pos hcp]
      simp only [Code.checkChildPath, Bool.or_eq_true, beq_iff_eq] at hcp
      refine iff_of_false (by simp) ?_
      rintro ⟨hlen, hne⟩
      rcases hcp with h1 | h2
      · omega
      · exact hne h2
    · rw [if_neg hcp]
      simp only [Code.checkChildPath, Bool.or_eq_true, beq_iff_eq,
        not_or] at hcp
      obtain ⟨hlen, hne⟩ := hcp
      exact iff_of_true rfl ⟨by omega, hne⟩
  · intro c hc
    unfold Code.child at hc
    by_cases hcp : Code.checkChildPath parent childStr = true
    · rw [if_pos hcp] at hc
      exact (Option.some.inj hc).symm
    · rw [if_neg hcp] at hc
      exact Option.noConfusion hc

/-- Witness for C6 (amended) at parent `"a.b"` and `childStr "z.b.c"`. -/
theorem child_validates_only_parent_segment_witness :
    Code.child (.node (.root "a") "b") "z.b.c" =
      some (.node (.node (.root "a") "b") "c") ∧
    Code.node (.node (.root "a") "b") "c" =
      .node (.node (.root "a") "b") ((splitDots "z.b.c").getLastD "") :=
  ⟨by decide,
   (child_validates_only_parent_segment (.node (.root "a") "b") "z.b.c").2
     (.node (.node (.root "a") "b") "c") (by decide)⟩

/-- Counterexample for C6: the parent `"a.b"` (built through the public
`Child` API) and the child string `"z.b.c"`.  The portion before the last
separator, `"z.b"`, differs from the parent's full path `"a.b"`, so the
claim predicts a panic — but `Child` succeeds, because `checkCodePath`
(`error_code.go:314`) only compares the second-to-last component `"b"`
against the parent's local segment `"b"`. -/
theorem child_full_path_check_counterexample :
    Code.child (.root "a") "b" = some (.node (.root "a") "b") ∧
    Code.child (.node (.root "a") "b") "z.b.c" =
      some (.node (.node (.root "a") "b") "c") ∧
    beforeLastSep "z.b.c" ≠ Code.codeStr (.node (.root "a") "b") :=
  ⟨by decide, by decide, by decide⟩

theorem unwrapGroups_expand (e : GoErr) :
    unwrapGroups e = e ::
      (match e.unwrapGroup with
       | some items => unwrapGroupsList items
       | none =>
         match e.unwrapSingle with
         | some nxt => unwrapGroups nxt
         | none => []) := by
  conv_lhs => unfold unwrapGroups
  congr 1
  split
  · rename_i items heq
    rw [heq]
  · rename_i heq
    rw [heq]
    split
    · rename_i nxt heq'
      rw [heq']
    · rename_i heq'
      rw [heq']

theorem mem_unwrapGroups_self (e : GoErr) : e ∈ unwrapGroups e := by
  rw [unwrapGroups_expand]
  exact List.mem_cons_self _ _

/-- C10 (amended): `ChainContext.Unwrap()` returns the single-unwrap cause
of `Top` when one exists, and otherwise returns the resolved `ErrorCode`
itself; in the latter case the resolved value is reachable by unwrapping
the returned object.  (When `Top` does have a cause, only the original
chain is reachable — the resolved aggregate built by `CodeChain` need not
occur in it; see the counterexample.) -/
theorem chainContext_unwrap_cases (ec top : GoErr) :
    (∀ w, top.unwrapSingle = some w →
      GoErr.unwrapSingle (.chainContext ec top) = some w) ∧
    (top.unwrapSingle = none →
      GoErr.unwrapSingle (.chainContext ec top) = some ec ∧
      ec ∈ unwrapGroups (.chainContext ec top)) := by
  constructor
  · intro w hw
    simp [GoErr.unwrapSingle, hw]
  · intro hw
    have hu : GoErr.unwrapSingle (.chainContext ec top) = some ec := by
      simp [GoErr.unwrapSingle, hw]
    refine ⟨hu, ?_⟩
    rw [unwrapGroups_expand]
    simp only [GoErr.unwrapGroup, hu]
    exact List.mem_cons_of_mem _ (mem_unwrapGroups_self ec)

/-- Witness for C10 (amended): a `ChainContext` whose `Top` has no cause
unwraps to the resolved `ErrorCode`. -/
theorem chainContext_unwrap_cases_witness :
    GoErr.unwrapSingle (.base "t") = none ∧
    (GoErr.unwrapSingle
        (.chainContext (.coded (.root "c") (.base "x")) (.base "t")) =
      some (.coded (.root "c") (.base "x")) ∧
    (GoErr.coded (.root "c") (.base "x")) ∈
      unwrapGroups
        (.chainContext (.coded (.root "c") (.base "x")) (.base "t"))) :=
  ⟨rfl, (chainContext_unwrap_cases (.coded (.root "c") (.base "x"))
    (.base "t")).2 rfl⟩

/-- Counterexample for C10: for
`err = errors.Wrap(group{CodedError(a), CodedError(b)}, "w")`, `CodeChain`
resolves the group to a freshly built `multiErrorCode` aggregate and wraps
it in a `ChainContext` whose `Top` is `err`.  `Unwrap()` then returns
`Top`'s cause, and the aggregate itself occurs nowhere in the unwrap tree
of the returned object — so the "resolved code-carrying value always
remains reachable by unwrapping" part of the claim fails. -/
theorem chainContext_resolved_aggregate_unreachable :
    codeChain (.wrapped "w" (.group "g"
        [.coded (.root "a") (.base "ma"), .coded (.root "b") (.base "mb")])) =
      some (.chainContext
        (.multiEC (some (.coded (.root "a") (.base "ma")))
          [.coded (.root "b") (.base "mb")])
        (.wrapped "w" (.group "g"
          [.coded (.root "a") (.base "ma"),
           .coded (.root "b") (.base "mb")]))) ∧
    (GoErr.multiEC (some (.coded (.root "a") (.base "ma")))
        [.coded (.root "b") (.base "mb")]) ∉
      unwrapGroups (.chainContext
        (.multiEC (some (.coded (.root "a") (.base "ma")))
          [.coded (.root "b") (.base "mb")])
        (.wrapped "w" (.group "g"
          [.coded (.root "a") (.base "ma"),
           .coded (.root "b") (.base "mb")]))) := by
  have hA : codeChain (.coded (.root "a") (.base "ma")) =
      some (.coded (.root "a") (.base "ma")) := codeChain_of_ec _ rfl
  have hB : codeChain (.coded (.root "b") (.base "mb")) =
      some (.coded (.root "b") (.base "mb")) := codeChain_of_ec _ rfl
  have hlist : codeChainList
      [.coded (.root "a") (.base "ma"), .coded (.root "b") (.base "mb")] =
      [.coded (.root "a") (.base "ma"), .coded (.root "b") (.base "mb")] := by
    simp only [codeChainList_cons, codeChainList_nil, hA, hB]
  have hgrp : checkError (.group "g"
      [.coded (.root "a") (.base "ma"), .coded (.root "b") (.base "mb")]) =
      some (.multiEC (some (.coded (.root "a") (.base "ma")))
        [.coded (.root "b") (.base "mb")]) := by
    rw [checkError_group
      (.group "g" [.coded (.root "a") (.base "ma"),
        .coded (.root "b") (.base "mb")])
      [.coded (.root "a") (.base "ma"), .coded (.root "b") (.base "mb")]
      rfl rfl]
    rw [hlist]
    rfl
  have hT : checkError (.wrapped "w" (.group "g"
      [.coded (.root "a") (.base "ma"), .coded (.root "b") (.base "mb")])) =
      none := checkError_single
        (.wrapped "w" (.group "g" [.coded (.root "a") (.base "ma"),
          .coded (.root "b") (.base "mb")])) rfl rfl
  refine ⟨?_, ?_⟩
  · rw [codeChain_not_ec
      (.wrapped "w" (.group "g" [.coded (.root "a") (.base "ma"),
        .coded (.root "b") (.base "mb")])) rfl,
      codeChainFrom_step_none _ _ hT]
    simp only [GoErr.unwrapSingle]
    exact codeChainFrom_step_some _ _ _ hgrp
  · simp [unwrapGroups, unwrapGroupsList, GoErr.unwrapGroup,
      GoErr.unwrapSingle]

/-- Witness for C9 with an empty `Nat` table, `parent = "p"`, child
`"p.c"`, value `7`. -/
theorem metadata_inherited_from_parent_witness :
    ((fun _ => none : MetaTable Nat) (Code.codeStr (.root "p")) = none) ∧
    (Code.child (.root "p") "c" = some (.node (.root "p") "c")) ∧
    ((fun _ => none : MetaTable Nat)
        (Code.codeStr (.node (.root "p") "c")) = none) ∧
    ∃ md', setMetaData (fun _ => none) (.root "p") 7 = some md' ∧
      metaDataFromAncestors md' (.node (.root "p") "c") = some 7 :=
  ⟨rfl, by decide, rfl,
   metadata_inherited_from_parent (fun _ => none) (.root "p")
     (.node (.root "p") "c") "c" 7 rfl (by decide) rfl⟩

end Errcode
